import Mathlib

/-!
Verification of the `bobhilt/lessons` notebooks: shallow embeddings of the
factorial examples from the unit-testing notebook, the map/reduce word-count
and pi-estimation code, the decorator example, and the logging and ORM
narrations, with theorems settling the specification's claims about them.

Conventions: Python ints are `Int`; raising an exception is `Except.error`;
a recursion that may not finish carries a fuel parameter and returns `none`
when the recursion depth is exhausted; printing returns the list of printed
lines alongside the value.
-/

/-- Python exception kinds raised by the notebook code. -/
inductive PyErr where
  | valueError
  | typeError
  deriving DecidableEq, Repr

/-- The rewritten `factorial` from the testing notebook:
`if n < 0: raise ValueError; if n == 0: return 1; return n * factorial(n - 1)`.
Total on all integers because negative inputs raise before recursing. -/
def factorial_rewritten (n : Int) : Except PyErr Int :=
  if n < 0 then Except.error PyErr.valueError
  else if n = 0 then Except.ok 1
  else match factorial_rewritten (n - 1) with
    | Except.ok r => Except.ok (n * r)
    | Except.error e => Except.error e
termination_by n.toNat
decreasing_by omega

/-- The initial `factorial` from the testing notebook, with base case `n == 1`
only: `if n == 1: return n; return n * factorial(n - 1)`.  Embedded with a
fuel parameter bounding the recursion depth; `none` means the recursion did
not finish within the given depth. -/
def factorial_initial : Nat → Int → Option Int
  | 0, _ => none
  | fuel + 1, n =>
    if n = 1 then some n
    else match factorial_initial fuel (n - 1) with
      | some r => some (n * r)
      | none => none

/-- Python run-time values passed to `factorial` by the test suite: an int
or a str (`factorial('bob')` in `test_non_integer`). -/
inductive PyVal where
  | int (n : Int)
  | str (s : String)
  deriving DecidableEq, Repr

/-- Python 3 `v < 0`: int/int comparison is ordinary; str/int comparison
raises `TypeError` (unorderable types). -/
def pyLtZero : PyVal → Except PyErr Bool
  | PyVal.int n => Except.ok (decide (n < 0))
  | PyVal.str _ => Except.error PyErr.typeError

/-- Python 3 `v == 0`: equality never raises; a str never equals an int. -/
def pyEqZero : PyVal → Bool
  | PyVal.int n => decide (n = 0)
  | PyVal.str _ => false

/-- Python 3 `v - 1`: defined on ints, raises `TypeError` on str. -/
def pySubOne : PyVal → Except PyErr PyVal
  | PyVal.int n => Except.ok (PyVal.int (n - 1))
  | PyVal.str _ => Except.error PyErr.typeError

/-- Python 3 `a * b` on the values reachable inside `factorial` (int times
int; the str cases are unreachable because the `n < 0` comparison raises
before any multiplication). -/
def pyMulVal : PyVal → PyVal → Except PyErr PyVal
  | PyVal.int a, PyVal.int b => Except.ok (PyVal.int (a * b))
  | _, _ => Except.error PyErr.typeError

/-- The rewritten `factorial` over Python values, with a recursion-depth
fuel (`none` = recursion limit exhausted): evaluates `n < 0` first, then
`n == 0`, then `n * factorial(n - 1)`, propagating exceptions. -/
def factorialPy : Nat → PyVal → Option (Except PyErr PyVal)
  | 0, _ => none
  | fuel + 1, v =>
    match pyLtZero v with
    | Except.error e => some (Except.error e)
    | Except.ok true => some (Except.error PyErr.valueError)
    | Except.ok false =>
      if pyEqZero v then some (Except.ok (PyVal.int 1))
      else
        match pySubOne v with
        | Except.error e => some (Except.error e)
        | Except.ok v' =>
          match factorialPy fuel v' with
          | none => none
          | some (Except.error e) => some (Except.error e)
          | some (Except.ok r) => some (pyMulVal v r)

/-! ## Word counting (map/reduce notebook)

The input text enters the algorithms only through `text.split()`, so both
the direct count and the three-step pipeline are embedded as functions of
the word list `ws = text.split()`.  Python dicts are modelled as
insertion-ordered association lists. -/

/-- Dict lookup `d[w]` (`none` when the key is absent). -/
def dictGet (d : List (String × Nat)) (w : String) : Option Nat :=
  (d.find? (fun p => p.1 = w)).map Prod.snd

/-- Dict assignment `d[w] = v`: replace the entry in place if the key is
present, else append at the end (insertion order). -/
def dictSet : List (String × Nat) → String → Nat → List (String × Nat)
  | [], w, v => [(w, v)]
  | p :: rest, w, v =>
    if p.1 = w then (w, v) :: rest else p :: dictSet rest w v

/-- One iteration of the direct-count loop:
`if word not in counts_per_word: counts_per_word[word] = 0` followed by
`counts_per_word[word] += 1`. -/
def cpwStep (d : List (String × Nat)) (word : String) : List (String × Nat) :=
  let d1 := if (dictGet d word).isNone then dictSet d word 0 else d
  dictSet d1 word ((dictGet d1 word).getD 0 + 1)

/-- The direct single-pass dictionary word count (`counts_per_word`). -/
def counts_per_word (ws : List String) : List (String × Nat) :=
  ws.foldl cpwStep []

/-- Step 1 of the pipeline: emit `(word, 1)` for every word found. -/
def word_instances (ws : List String) : List (String × Nat) :=
  ws.map (fun word => (word, 1))

/-- Python tuple comparison on `(word, count)` pairs, as used by `sorted`:
lexicographic. -/
def pairLe (p q : String × Nat) : Bool :=
  decide (p.1 < q.1) || (decide (p.1 = q.1) && decide (p.2 ≤ q.2))

/-- `itertools.groupby(·, lambda x: x[0])` combined with the comprehension
`[(k, [x[1] for x in v]) for k, v in ...]`: split the list into maximal runs
of consecutive pairs sharing the first component, keeping for each run its
key and the list of second components. -/
def pyGroupBy : List (String × Nat) → List (String × List Nat)
  | [] => []
  | (w, c) :: rest =>
    match pyGroupBy rest with
    | [] => [(w, [c])]
    | (w', cs) :: gs =>
      if w = w' then (w, c :: cs) :: gs else (w, [c]) :: (w', cs) :: gs

/-- Step 2 of the pipeline: sort the emitted pairs and collate equal words
(`collated_word_instances`). -/
def collated_word_instances (ws : List String) : List (String × List Nat) :=
  pyGroupBy ((word_instances ws).mergeSort pairLe)

/-- Step 3 of the pipeline: for each word, sum its counts into a fresh
dictionary (`word_counts`). -/
def word_counts (ws : List String) : List (String × Nat) :=
  (collated_word_instances ws).foldl (fun d g => dictSet d g.1 g.2.sum) []

/-- `countOpt n` is what a count dictionary reports for a word occurring
`n` times: absent when `n = 0`, else `n`. -/
def countOpt (n : Nat) : Option Nat :=
  if n = 0 then none else some n

/-! ## Pi estimation (map/reduce notebook) -/

/-- The pi-estimation `reducefn`: `inside = 0; total = 0;
for v in value: inside += v[0]; total += v[1]; return inside, total`. -/
def reducefn (value : List (Int × Int)) : Int × Int :=
  value.foldl (fun acc v => (acc.1 + v.1, acc.2 + v.2)) (0, 0)

/-- The pi-estimation map function: a map task's batch of sampled
coordinate pairs is the list `points`; `inside` counts the points with
`math.sqrt(x**2 + y**2) < 1.0`, and the task yields
`('totals', (inside, total))`. -/
noncomputable def mapfn_pi (points : List (Real × Real)) : String × (Nat × Nat) :=
  ("totals",
    (points.countP (fun p => decide (Real.sqrt (p.1 ^ 2 + p.2 ^ 2) < 1)),
     points.length))

/-- The optimized pi-estimation map function, with the square root
removed: counts the points with `x**2 + y**2 < 1.0`. -/
noncomputable def mapfn_pi_opt (points : List (Real × Real)) : String × (Nat × Nat) :=
  ("totals",
    (points.countP (fun p => decide (p.1 ^ 2 + p.2 ^ 2 < 1)),
     points.length))

/-! ## Decorators notebook -/

/-- A zero-argument Python function with printing is modelled as a function
from `Unit` to the list of printed lines paired with the return value.
`print_hi_first(func)` returns `inner`, which prints `'hi'`, then calls
`func()` and returns its value. -/
def print_hi_first {α : Type} (func : Unit → List String × α) :
    Unit → List String × α :=
  fun u =>
    let r := func u
    ("hi" :: r.1, r.2)

/-- The body of `def print_three(): print('three')`. -/
def print_three_body : Unit → List String × Unit :=
  fun _ => (["three"], ())

/-- `@print_hi_first` applied to the definition of `print_three` rebinds
the name `print_three` to the wrapper returned by `print_hi_first`. -/
def print_three : Unit → List String × Unit :=
  print_hi_first print_three_body

/-! ## Logging notebook -/

/-- Modelled from the spec: the Python `logging` module is not part of the
repository; the notebook narrates its filtering rule ("only messages of
`INFO` level or higher will make it to the output") over the severity order
DEBUG < INFO < WARNING < ERROR < CRITICAL (numeric levels 10/20/30/40/50). -/
inductive LogLevel where
  | debug
  | info
  | warning
  | error
  | critical
  deriving DecidableEq, Repr

/-- The numeric value of a logging level. -/
def LogLevel.toNat : LogLevel → Nat
  | LogLevel.debug => 10
  | LogLevel.info => 20
  | LogLevel.warning => 30
  | LogLevel.error => 40
  | LogLevel.critical => 50

/-- Modelled from the spec: a logger holds the configured level. -/
structure Logger where
  level : LogLevel
  deriving DecidableEq, Repr

/-- `log.setLevel(lv)`. -/
def Logger.setLevel (lg : Logger) (lv : LogLevel) : Logger :=
  { lg with level := lv }

/-- Modelled from the spec: the lines a single `log.<lv>(msg)` call adds to
the output — the message is emitted iff its level is at least the logger's
configured level. -/
def Logger.emit (lg : Logger) (lv : LogLevel) (msg : String) : List String :=
  if lg.level.toNat ≤ lv.toNat then [msg] else []

/-! ## ORM notebook -/

/-- The `Person` record of the ORM tutorial. -/
structure Person where
  first_name : String
  last_name : String
  deriving DecidableEq, Repr

/-- Modelled from the spec: SQLAlchemy and SQLite are not part of the
repository.  `create_engine('sqlite:///:memory:')` yields a database held
entirely in process memory. -/
structure MemDb where
  schemaCreated : Bool
  rows : List Person
  deriving DecidableEq, Repr

/-- Modelled from the spec: the world visible to the ORM tutorial is the
in-memory database plus the host file system (a map from path to file
contents). -/
structure OrmWorld where
  db : MemDb
  files : List (String × String)
  deriving DecidableEq, Repr

/-- `Base.metadata.create_all(engine)`: creates the schema in the in-memory
database. -/
def create_all (w : OrmWorld) : OrmWorld :=
  { w with db := { w.db with schemaCreated := true } }

/-- `session.add(p)`: stages a new `Person` row in the in-memory database. -/
def session_add (w : OrmWorld) (p : Person) : OrmWorld :=
  { w with db := { w.db with rows := w.db.rows ++ [p] } }

/-- `session.flush()`: pushes pending changes to the engine's store, which
for `sqlite:///:memory:` lives in process memory. -/
def session_flush (w : OrmWorld) : OrmWorld :=
  w

/-- `session.query(Person).filter(pred).all()`: a read returning the
matching rows and the unchanged world. -/
def session_query (w : OrmWorld) (pred : Person → Bool) :
    List Person × OrmWorld :=
  (w.db.rows.filter pred, w)

/-- `session.delete(p)`: removes a row from the in-memory database. -/
def session_delete (w : OrmWorld) (p : Person) : OrmWorld :=
  { w with db := { w.db with rows := w.db.rows.erase p } }

/-- Modelled from the spec: program exit discards the in-memory database
("this database ... will be lost as soon as our program exits"); the file
system persists. -/
def program_exit (w : OrmWorld) : OrmWorld :=
  { db := { schemaCreated := false, rows := [] }, files := w.files }

/-! ## Notebook independence -/

/-- The notebook documents of the repository: the decorators, SQLAlchemy/ORM
and map/reduce notebooks (three separate documents, each with its own
kernelspec), the unit-testing notebook, the formatted-printing notebook, the
mocks lightning talk, and the logging notebook. -/
inductive Notebook where
  | decorators
  | sqlalchemy_orm
  | mapreduce
  | unittesting
  | formatting
  | mocks
  | logging_talk
  deriving DecidableEq, Repr

/-- Modelled from the spec: each notebook runs in its own kernel;
inspection of every executed cell shows no notebook reads or writes files
or any other channel observable by another notebook, so the world is the
per-notebook kernel states plus the (untouched) file system. -/
structure NotebookWorld (KState : Type) where
  kernels : Notebook → KState
  files : List (String × String)

/-- Modelled from the spec: running notebook `nb` applies that notebook's
computation `step nb` to `nb`'s own kernel state and touches nothing else.
`step` is an arbitrary family of per-notebook computations. -/
def runNotebook {KState : Type} (step : Notebook → KState → KState)
    (nb : Notebook) (w : NotebookWorld KState) : NotebookWorld KState :=
  { w with
    kernels := fun nb' =>
      if nb' = nb then step nb (w.kernels nb) else w.kernels nb' }

/-- Running a sequence of notebooks in order. -/
def runAll {KState : Type} (step : Notebook → KState → KState)
    (nbs : List Notebook) (w : NotebookWorld KState) : NotebookWorld KState :=
  nbs.foldl (fun w' nb => runNotebook step nb w') w

/-! ## Theorems -/

lemma factorial_rewritten_neg {n : Int} (h : n < 0) :
    factorial_rewritten n = Except.error PyErr.valueError := by
  rw [factorial_rewritten]
  simp [h]

lemma factorial_rewritten_natCast :
    ∀ k : Nat, factorial_rewritten (k : Int) = Except.ok (k.factorial : Int) := by
  intro k
  induction k with
  | zero => rw [factorial_rewritten]; norm_num
  | succ m ih =>
    rw [factorial_rewritten]
    have h1 : ¬ (((m + 1 : Nat) : Int) < 0) := by push_cast; omega
    have h2 : ¬ (((m + 1 : Nat) : Int) = 0) := by push_cast; omega
    have h3 : ((m + 1 : Nat) : Int) - 1 = (m : Int) := by push_cast; ring
    simp only [h1, h2, if_false, h3, ih]
    rw [Nat.factorial_succ]
    push_cast
    ring_nf

lemma factorial_rewritten_nonneg {n : Int} (h : 0 ≤ n) :
    factorial_rewritten n = Except.ok (n.toNat.factorial : Int) := by
  obtain ⟨k, rfl⟩ : ∃ k : Nat, n = (k : Int) := ⟨n.toNat, by omega⟩
  rw [factorial_rewritten_natCast]
  simp

lemma factorial_initial_nonpos : ∀ (fuel : Nat) {n : Int}, n ≤ 0 →
    factorial_initial fuel n = none := by
  intro fuel
  induction fuel with
  | zero => intro n _; rfl
  | succ f ih =>
    intro n hn
    have h1 : ¬ (n = 1) := by omega
    simp only [factorial_initial, h1, if_false]
    rw [ih (by omega : n - 1 ≤ 0)]

lemma factorial_initial_pos : ∀ (k fuel : Nat), k < fuel →
    factorial_initial fuel ((k : Int) + 1) = some (((k + 1).factorial : Nat) : Int) := by
  intro k
  induction k with
  | zero =>
    intro fuel hf
    obtain ⟨f, rfl⟩ : ∃ f, fuel = f + 1 := ⟨fuel - 1, by omega⟩
    simp [factorial_initial, Nat.factorial]
  | succ k ih =>
    intro fuel hf
    obtain ⟨f, rfl⟩ : ∃ f, fuel = f + 1 := ⟨fuel - 1, by omega⟩
    have h1 : ¬ (((k + 1 : Nat) : Int) + 1 = 1) := by push_cast; omega
    simp only [factorial_initial, h1, if_false]
    have h2 : ((k + 1 : Nat) : Int) + 1 - 1 = (k : Int) + 1 := by push_cast; ring
    rw [h2, ih f (by omega)]
    have h3 : ((k + 1 + 1).factorial : Int)
        = (((k + 1 : Nat) : Int) + 1) * ((k + 1).factorial : Int) := by
      rw [Nat.factorial_succ]
      push_cast
      ring
    rw [h3]

/-- C1: the rewritten factorial raises ValueError exactly on negative inputs,
and on every `n ≥ 0` terminates returning the product `1 * 2 * ... * n`
(with `factorial 0 = 1`), so `test_negative_input` (expecting ValueError at
`-1`) passes. -/
theorem rewritten_factorial_spec :
    (∀ n : Int, factorial_rewritten n = Except.error PyErr.valueError ↔ n < 0) ∧
    (∀ n : Int, 0 ≤ n → factorial_rewritten n = Except.ok (n.toNat.factorial : Int)) ∧
    factorial_rewritten (-1) = Except.error PyErr.valueError := by
  refine ⟨fun n => ⟨fun h => ?_, fun h => factorial_rewritten_neg h⟩,
    fun n h => factorial_rewritten_nonneg h, factorial_rewritten_neg (by norm_num)⟩
  by_contra hge
  push_neg at hge
  rw [factorial_rewritten_nonneg hge] at h
  exact Except.noConfusion h

/-- Witness for C1 at the concrete input `n = 3`. -/
theorem rewritten_factorial_spec_witness :
    0 ≤ (3 : Int) ∧ factorial_rewritten 3 = Except.ok 6 := by
  refine ⟨by norm_num, ?_⟩
  have h := rewritten_factorial_spec.2.1 3 (by norm_num)
  simpa [Nat.factorial] using h

/-- C2: the initial factorial (base case `n == 1` only) returns the product
`1 * 2 * ... * n` for every `n ≥ 1` whenever it is given enough recursion
depth, but for every `n ≤ 0` it exhausts any recursion limit (`none` for all
fuel); in particular `factorial 0` and `factorial (-1)` never return, so
`test_boundary` and `test_negative_input` fail against it. -/
theorem initial_factorial_spec :
    (∀ n : Int, 1 ≤ n → ∀ fuel : Nat, n.toNat ≤ fuel →
      factorial_initial fuel n = some (n.toNat.factorial : Int)) ∧
    (∀ n : Int, n ≤ 0 → ∀ fuel : Nat, factorial_initial fuel n = none) ∧
    (∀ fuel : Nat, factorial_initial fuel 0 = none ∧
      factorial_initial fuel (-1) = none) := by
  refine ⟨?_, fun n hn fuel => factorial_initial_nonpos fuel hn,
    fun fuel => ⟨factorial_initial_nonpos fuel (by norm_num),
      factorial_initial_nonpos fuel (by norm_num)⟩⟩
  intro n hn fuel hfuel
  obtain ⟨k, hk⟩ : ∃ k : Nat, n = (k : Int) + 1 := ⟨n.toNat - 1, by omega⟩
  subst hk
  have hk2 : ((k : Int) + 1).toNat = k + 1 := by omega
  rw [hk2] at hfuel ⊢
  exact factorial_initial_pos k fuel (by omega)

/-- Witness for C2 at the concrete inputs `n = 3` (fuel 5) and `n = -1`. -/
theorem initial_factorial_spec_witness :
    (1 ≤ (3 : Int) ∧ (3 : Int).toNat ≤ 5 ∧ factorial_initial 5 3 = some 6) ∧
    factorial_initial 7 (-1) = none := by
  refine ⟨⟨by norm_num, by norm_num, ?_⟩,
    initial_factorial_spec.2.1 (-1) (by norm_num) 7⟩
  have h := initial_factorial_spec.1 3 (by norm_num) 5 (by norm_num)
  simpa [Nat.factorial] using h

lemma reducefn_foldl (l : List (Int × Int)) :
    ∀ a : Int × Int,
      l.foldl (fun acc v => (acc.1 + v.1, acc.2 + v.2)) a
        = (a.1 + (l.map Prod.fst).sum, a.2 + (l.map Prod.snd).sum) := by
  induction l with
  | nil => intro a; simp
  | cons v rest ih =>
    intro a
    simp only [List.foldl_cons, List.map_cons, List.sum_cons, ih]
    rw [Prod.mk.injEq]
    constructor <;> ring

lemma reducefn_eq_sums (l : List (Int × Int)) :
    reducefn l = ((l.map Prod.fst).sum, (l.map Prod.snd).sum) := by
  unfold reducefn
  rw [reducefn_foldl]
  simp

/-- C4: the pi-estimation `reducefn` is invariant under permutation of the
list of map outputs and under regrouping (reducing chunkwise and then
reducing the partial results), so the final `(inside, total)` pair does not
depend on which worker completed which map task or on completion order. -/
theorem pi_reduce_order_independent :
    (∀ l₁ l₂ : List (Int × Int), l₁.Perm l₂ → reducefn l₁ = reducefn l₂) ∧
    (∀ chunks : List (List (Int × Int)),
      reducefn chunks.flatten = reducefn (chunks.map reducefn)) := by
  constructor
  · intro l₁ l₂ hperm
    rw [reducefn_eq_sums, reducefn_eq_sums]
    rw [(hperm.map Prod.fst).sum_eq, (hperm.map Prod.snd).sum_eq]
  · intro chunks
    rw [reducefn_eq_sums, reducefn_eq_sums]
    simp only [List.map_flatten, List.sum_flatten, List.map_map]
    rw [Prod.mk.injEq]
    constructor
    · congr 1
      apply List.map_congr_left
      intro c _
      simp [Function.comp, reducefn_eq_sums]
    · congr 1
      apply List.map_congr_left
      intro c _
      simp [Function.comp, reducefn_eq_sums]

/-- Witness for C4 at a concrete permutation of two map outputs. -/
theorem pi_reduce_order_independent_witness :
    ([((3 : Int), (5 : Int)), (1, 2)]).Perm [(1, 2), (3, 5)] ∧
    reducefn [(3, 5), (1, 2)] = reducefn [(1, 2), (3, 5)] :=
  ⟨List.Perm.swap _ _ _, pi_reduce_order_independent.1 _ _ (List.Perm.swap _ _ _)⟩

/-- C5: for all real coordinates, `sqrt(x² + y²) < 1` iff `x² + y² < 1`, so
the optimized pi map function (square root removed) counts exactly the same
throws as inside and returns the same `(inside, total)` output as the
original. -/
theorem pi_map_sqrt_equiv :
    (∀ x y : Real, Real.sqrt (x ^ 2 + y ^ 2) < 1 ↔ x ^ 2 + y ^ 2 < 1) ∧
    (∀ points : List (Real × Real), mapfn_pi points = mapfn_pi_opt points) := by
  have key : ∀ x y : Real, Real.sqrt (x ^ 2 + y ^ 2) < 1 ↔ x ^ 2 + y ^ 2 < 1 := by
    intro x y
    have hnn : (0 : Real) ≤ x ^ 2 + y ^ 2 := by positivity
    constructor
    · intro hlt
      by_contra hge
      push_neg at hge
      have h1 : (1 : Real) ≤ Real.sqrt (x ^ 2 + y ^ 2) := Real.one_le_sqrt.mpr hge
      linarith
    · intro hlt
      have h2 := Real.sqrt_lt_sqrt hnn hlt
      simpa using h2
  refine ⟨key, fun points => ?_⟩
  unfold mapfn_pi mapfn_pi_opt
  congr 1
  congr 1
  apply List.countP_congr
  intro p _
  simp only [decide_eq_true_eq]
  exact key p.1 p.2

/-- C6: the function returned by `print_hi_first(f)` prints `'hi'`, then
performs one call of `f` and returns its value; the decorated `print_three`
therefore prints `'hi'` followed by `'three'`. -/
theorem decorator_spec :
    (∀ (α : Type) (func : Unit → List String × α) (u : Unit),
      print_hi_first func u = ("hi" :: (func ()).1, (func ()).2)) ∧
    print_three () = (["hi", "three"], ()) := by
  refine ⟨fun α func u => ?_, rfl⟩
  cases u
  rfl

/-- C7: with the logger set to `INFO`, `log.debug` emits nothing while
`log.info` emits its message; in general a message reaches the output iff
its level is at least the configured level. -/
theorem logging_level_filter :
    (∀ lg : Logger,
      (lg.setLevel LogLevel.info).emit LogLevel.debug "my debug message" = [] ∧
      (lg.setLevel LogLevel.info).emit LogLevel.info "my info message"
        = ["my info message"]) ∧
    (∀ (lg : Logger) (lv : LogLevel) (msg : String),
      lg.emit lv msg = [msg] ↔ lg.level.toNat ≤ lv.toNat) ∧
    (∀ (lg : Logger) (lv : LogLevel) (msg : String),
      lg.emit lv msg = [] ↔ ¬ lg.level.toNat ≤ lv.toNat) := by
  refine ⟨fun lg => ⟨rfl, rfl⟩, fun lg lv msg => ?_, fun lg lv msg => ?_⟩ <;>
    · unfold Logger.emit
      by_cases h : lg.level.toNat ≤ lv.toNat <;> simp [h]

/-- C8: every ORM tutorial operation leaves the host file system unchanged
(the engine is `sqlite:///:memory:`), and program exit loses all stored
`Person` rows. -/
theorem orm_in_memory_frame :
    (∀ (w : OrmWorld) (p : Person) (pred : Person → Bool),
      (create_all w).files = w.files ∧
      (session_add w p).files = w.files ∧
      (session_flush w).files = w.files ∧
      (session_query w pred).2.files = w.files ∧
      (session_delete w p).files = w.files ∧
      (program_exit w).files = w.files) ∧
    (∀ w : OrmWorld, (program_exit w).db.rows = []) :=
  ⟨fun _ _ _ => ⟨rfl, rfl, rfl, rfl, rfl, rfl⟩, fun _ => rfl⟩

/-- C9: calling the rewritten factorial on any string raises `TypeError` at
the `n < 0` comparison, within the very first call (fuel 1 suffices: no
recursion and no multiplication happen first); in particular
`factorial('bob')` raises `TypeError`, as `test_non_integer` relies on. -/
theorem non_integer_factorial_typeerror :
    (∀ (s : String) (fuel : Nat),
      factorialPy (fuel + 1) (PyVal.str s) = some (Except.error PyErr.typeError)) ∧
    factorialPy 1 (PyVal.str "bob") = some (Except.error PyErr.typeError) :=
  ⟨fun _ _ => rfl, rfl⟩

lemma runNotebook_files {KState : Type} (step : Notebook → KState → KState)
    (nb : Notebook) (w : NotebookWorld KState) :
    (runNotebook step nb w).files = w.files := rfl

lemma runAll_files {KState : Type} (step : Notebook → KState → KState) :
    ∀ (nbs : List Notebook) (w : NotebookWorld KState),
      (runAll step nbs w).files = w.files := by
  intro nbs
  induction nbs with
  | nil => intro w; rfl
  | cons nb rest ih =>
    intro w
    simpa [runAll, List.foldl_cons] using ih (runNotebook step nb w)

lemma runAll_kernels_not_mem {KState : Type} (step : Notebook → KState → KState) :
    ∀ (nbs : List Notebook) (w : NotebookWorld KState) (nb : Notebook),
      nb ∉ nbs → (runAll step nbs w).kernels nb = w.kernels nb := by
  intro nbs
  induction nbs with
  | nil => intro w nb _; rfl
  | cons nb' rest ih =>
    intro w nb hmem
    have hne : nb ≠ nb' := fun h => hmem (by simp [h])
    have hrest : nb ∉ rest := fun h => hmem (by simp [h])
    have step1 : (runNotebook step nb' w).kernels nb = w.kernels nb := by
      simp [runNotebook, hne]
    calc (runAll step (nb' :: rest) w).kernels nb
        = (runAll step rest (runNotebook step nb' w)).kernels nb := rfl
      _ = (runNotebook step nb' w).kernels nb := ih _ nb hrest
      _ = w.kernels nb := step1

/-- C10: no notebook's result depends on whether or how any other notebooks
ran: running notebook `nb` after any sequence of other notebooks leaves
`nb`'s kernel in exactly the state produced by running `nb` in isolation,
and no sequence of notebook runs touches the file system. -/
theorem notebooks_independent :
    ∀ (KState : Type) (step : Notebook → KState → KState)
      (nbs : List Notebook) (w : NotebookWorld KState) (nb : Notebook),
      nb ∉ nbs →
      (runNotebook step nb (runAll step nbs w)).kernels nb
        = (runNotebook step nb w).kernels nb ∧
      (runAll step nbs w).files = w.files := by
  intro KState step nbs w nb hmem
  refine ⟨?_, runAll_files step nbs w⟩
  simp [runNotebook, runAll_kernels_not_mem step nbs w nb hmem]

/-- Witness for C10: the formatting notebook run after the testing notebook
ends in the same kernel state as run alone. -/
theorem notebooks_independent_witness :
    Notebook.formatting ∉ [Notebook.unittesting] ∧
    (runNotebook (fun _ s => s + 1) Notebook.formatting
        (runAll (fun _ s => s + 1) [Notebook.unittesting]
          ⟨fun _ => (0 : Nat), []⟩)).kernels Notebook.formatting
      = (runNotebook (fun _ s => s + 1) Notebook.formatting
          ⟨fun _ => (0 : Nat), []⟩).kernels Notebook.formatting :=
  ⟨by decide,
    (notebooks_independent Nat (fun _ s => s + 1) [Notebook.unittesting]
      ⟨fun _ => (0 : Nat), []⟩ Notebook.formatting (by decide)).1⟩

lemma dictGet_nil (w : String) : dictGet [] w = none := rfl

lemma dictGet_cons (p : String × Nat) (rest : List (String × Nat)) (w' : String) :
    dictGet (p :: rest) w' = if p.1 = w' then some p.2 else dictGet rest w' := by
  by_cases h : p.1 = w'
  · rw [if_pos h]
    unfold dictGet
    rw [List.find?_cons_of_pos rest (by simp [h])]
    rfl
  · rw [if_neg h]
    unfold dictGet
    rw [List.find?_cons_of_neg rest (by simp [h])]

lemma dictGet_dictSet (d : List (String × Nat)) (w : String) (v : Nat) (w' : String) :
    dictGet (dictSet d w v) w' = if w' = w then some v else dictGet d w' := by
  induction d with
  | nil =>
    show dictGet [(w, v)] w' = _
    rw [dictGet_cons]
    by_cases h : w' = w
    · rw [if_pos (show (w, v).1 = w' from h.symm), if_pos h]
    · rw [if_neg (show ¬ (w, v).1 = w' from fun hh => h hh.symm), if_neg h, dictGet_nil]
  | cons p rest ih =>
    by_cases hp : p.1 = w
    · show dictGet (if p.1 = w then (w, v) :: rest else p :: dictSet rest w v) w' = _
      rw [if_pos hp, dictGet_cons]
      by_cases h : w' = w
      · rw [if_pos (show (w, v).1 = w' from h.symm), if_pos h]
      · rw [if_neg (show ¬ (w, v).1 = w' from fun hh => h hh.symm), if_neg h,
          dictGet_cons, if_neg (show ¬ p.1 = w' from fun hh => h (hp ▸ hh.symm ▸ rfl))]
    · show dictGet (if p.1 = w then (w, v) :: rest else p :: dictSet rest w v) w' = _
      rw [if_neg hp, dictGet_cons, ih]
      by_cases h : p.1 = w'
      · rw [if_pos h, if_neg (show ¬ w' = w from fun hh => hp (h.symm ▸ hh ▸ rfl)),
          dictGet_cons, if_pos h]
      · rw [if_neg h]
        by_cases h2 : w' = w
        · rw [if_pos h2, if_pos h2]
        · rw [if_neg h2, if_neg h2, dictGet_cons, if_neg h]

lemma cpwStep_get (d : List (String × Nat)) (u : String) (f : String → Nat)
    (hd : ∀ w, dictGet d w = countOpt (f w)) :
    ∀ w', dictGet (cpwStep d u) w'
      = countOpt (if w' = u then f w' + 1 else f w') := by
  intro w'
  unfold cpwStep
  cases hfu : f u with
  | zero =>
    have hdu : dictGet d u = none := by rw [hd u, hfu]; rfl
    rw [hdu]
    simp only [Option.isNone_none, if_true]
    have hinner : dictGet (dictSet d u 0) u = some 0 := by
      rw [dictGet_dictSet, if_pos rfl]
    rw [dictGet_dictSet, hinner]
    simp only [Option.getD_some]
    by_cases h : w' = u
    · subst h
      rw [if_pos rfl, if_pos rfl, hfu]
      rfl
    · rw [if_neg h, if_neg h, dictGet_dictSet, if_neg h, hd w']
  | succ k =>
    have hdu : dictGet d u = some (k + 1) := by
      rw [hd u, hfu]
      rfl
    rw [hdu]
    simp only [Option.isNone_some, Bool.false_eq_true, if_false]
    rw [hdu]
    simp only [Option.getD_some]
    rw [dictGet_dictSet]
    by_cases h : w' = u
    · subst h
      rw [if_pos rfl, if_pos rfl, hfu]
      rfl
    · rw [if_neg h, if_neg h, hd w']

lemma cpw_loop : ∀ (ws : List String) (d : List (String × Nat)) (f : String → Nat),
    (∀ w, dictGet d w = countOpt (f w)) →
    ∀ w, dictGet (ws.foldl cpwStep d) w = countOpt (f w + ws.count w) := by
  intro ws
  induction ws with
  | nil =>
    intro d f hd w
    simpa using hd w
  | cons u ws ih =>
    intro d f hd w
    rw [List.foldl_cons]
    rw [ih (cpwStep d u) (fun w' => if w' = u then f w' + 1 else f w')
      (cpwStep_get d u f hd) w]
    by_cases hw : w = u
    · subst hw
      rw [if_pos rfl]
      congr 1
      rw [List.count_cons]
      simp
      omega
    · rw [if_neg hw]
      congr 1
      rw [List.count_cons]
      have : ¬ ((u == w) = true) := by simpa using fun hh => hw hh.symm
      simp [this]

lemma counts_per_word_get (ws : List String) (w : String) :
    dictGet (counts_per_word ws) w = countOpt (ws.count w) := by
  have h := cpw_loop ws [] (fun _ => 0) (fun _ => rfl) w
  simpa using h

lemma pyGroupBy_flatten : ∀ l : List (String × Nat),
    ((pyGroupBy l).map (fun g => g.2.map (fun c => (g.1, c)))).flatten = l := by
  intro l
  induction l with
  | nil => rfl
  | cons p rest ih =>
    obtain ⟨w, c⟩ := p
    cases hr : pyGroupBy rest with
    | nil =>
      rw [hr] at ih
      simp only [List.map_nil, List.flatten_nil] at ih
      simp [pyGroupBy, hr, ← ih]
    | cons g gs =>
      obtain ⟨w', cs⟩ := g
      rw [hr] at ih
      by_cases hw : w = w'
      · subst hw
        simp only [pyGroupBy, hr, if_pos rfl]
        simp only [List.map_cons, List.flatten_cons] at ih ⊢
        rw [← ih]
        rfl
      · simp only [pyGroupBy, hr, if_neg hw]
        simp only [List.map_cons, List.flatten_cons] at ih ⊢
        rw [← ih]
        rfl

lemma pyGroupBy_nonempty : ∀ (l : List (String × Nat)) (g : String × List Nat),
    g ∈ pyGroupBy l → g.2 ≠ [] := by
  intro l
  induction l with
  | nil => intro g hg; exact absurd hg (List.not_mem_nil g)
  | cons p rest ih =>
    obtain ⟨w, c⟩ := p
    intro g hg
    cases hr : pyGroupBy rest with
    | nil =>
      rw [show pyGroupBy ((w, c) :: rest) = [(w, [c])] by simp [pyGroupBy, hr]] at hg
      rcases List.mem_cons.mp hg with rfl | hg'
      · simp
      · exact absurd hg' (List.not_mem_nil g)
    | cons g0 gs =>
      obtain ⟨w', cs⟩ := g0
      by_cases hw : w = w'
      · rw [show pyGroupBy ((w, c) :: rest) = (w, c :: cs) :: gs by
          simp [pyGroupBy, hr, hw]] at hg
        rcases List.mem_cons.mp hg with rfl | hg'
        · simp
        · exact ih g (hr ▸ List.mem_cons_of_mem _ hg')
      · rw [show pyGroupBy ((w, c) :: rest) = (w, [c]) :: (w', cs) :: gs by
          simp [pyGroupBy, hr, hw]] at hg
        rcases List.mem_cons.mp hg with rfl | hg'
        · simp
        · exact ih g (hr ▸ hg')

lemma pyGroupBy_head_key (w : String) (c : Nat) (rest : List (String × Nat)) :
    ∃ cs gs, pyGroupBy ((w, c) :: rest) = (w, cs) :: gs := by
  cases hr : pyGroupBy rest with
  | nil => exact ⟨[c], [], by simp [pyGroupBy, hr]⟩
  | cons g gs =>
    obtain ⟨w', cs⟩ := g
    by_cases hw : w = w'
    · exact ⟨c :: cs, gs, by simp [pyGroupBy, hr, hw]⟩
    · exact ⟨[c], (w', cs) :: gs, by simp [pyGroupBy, hr, hw]⟩

lemma pyGroupBy_sorted_keys : ∀ l : List (String × Nat),
    l.Pairwise (fun p q => p.1 ≤ q.1) →
    (pyGroupBy l).Pairwise (fun a b => a.1 < b.1) := by
  intro l
  induction l with
  | nil => intro _; exact List.Pairwise.nil
  | cons p rest ih =>
    obtain ⟨w, c⟩ := p
    intro hp
    rw [List.pairwise_cons] at hp
    obtain ⟨hhead, htail⟩ := hp
    have ihg := ih htail
    cases hr0 : rest with
    | nil =>
      simp [pyGroupBy]
    | cons q rest' =>
      obtain ⟨w2, c2⟩ := q
      subst hr0
      obtain ⟨cs, gs, hg⟩ := pyGroupBy_head_key w2 c2 rest'
      rw [hg] at ihg
      rw [List.pairwise_cons] at ihg
      obtain ⟨ihhead, ihtail⟩ := ihg
      have hw_le : w ≤ w2 := hhead (w2, c2) (List.mem_cons_self _ _)
      have hgoal : pyGroupBy ((w, c) :: (w2, c2) :: rest')
          = if w = w2 then (w, c :: cs) :: gs
            else (w, [c]) :: (w2, cs) :: gs := by
        conv_lhs => rw [pyGroupBy]
        rw [hg]
      rw [hgoal]
      by_cases hw : w = w2
      · rw [if_pos hw]
        rw [List.pairwise_cons]
        exact ⟨fun b hb => hw ▸ ihhead b hb, ihtail⟩
      · rw [if_neg hw]
        have hwlt : w < w2 := lt_of_le_of_ne hw_le hw
        rw [List.pairwise_cons]
        constructor
        · intro b hb
          rcases List.mem_cons.mp hb with rfl | hb'
          · exact hwlt
          · exact lt_trans hwlt (ihhead b hb')
        · rw [List.pairwise_cons]
          exact ⟨ihhead, ihtail⟩

lemma fold_dictSet_get : ∀ (gs : List (String × List Nat)) (d : List (String × Nat)) (w : String),
    dictGet (gs.foldl (fun d' g => dictSet d' g.1 g.2.sum) d) w
      = gs.foldl (fun acc g => if g.1 = w then some g.2.sum else acc) (dictGet d w) := by
  intro gs
  induction gs with
  | nil => intro d w; rfl
  | cons g gs' ih =>
    intro d w
    rw [List.foldl_cons, List.foldl_cons, ih]
    congr 1
    rw [dictGet_dictSet]
    by_cases h : g.1 = w
    · rw [if_pos (h.symm), if_pos h]
    · rw [if_neg (fun hh => h hh.symm), if_neg h]

lemma foldl_if_no_key (w : String) : ∀ (gs : List (String × List Nat)) (init : Option Nat),
    (∀ g ∈ gs, g.1 ≠ w) →
    gs.foldl (fun acc g => if g.1 = w then some g.2.sum else acc) init = init := by
  intro gs
  induction gs with
  | nil => intro init _; rfl
  | cons g gs' ih =>
    intro init hno
    rw [List.foldl_cons, if_neg (hno g (List.mem_cons_self g gs'))]
    exact ih init (fun g' hg' => hno g' (List.mem_cons_of_mem g hg'))

lemma foldl_if_found (w : String) : ∀ (gs : List (String × List Nat)) (init : Option Nat)
    (g : String × List Nat),
    gs.Pairwise (fun a b => a.1 ≠ b.1) →
    gs.find? (fun g' => g'.1 = w) = some g →
    gs.foldl (fun acc g' => if g'.1 = w then some g'.2.sum else acc) init
      = some g.2.sum := by
  intro gs
  induction gs with
  | nil =>
    intro init g _ hf
    exact absurd hf (by simp)
  | cons g0 gs' ih =>
    intro init g hpw hf
    rw [List.pairwise_cons] at hpw
    obtain ⟨hhead, htail⟩ := hpw
    by_cases h : g0.1 = w
    · have hg0 : g = g0 := by
        rw [List.find?_cons_of_pos gs' (by simp [h])] at hf
        exact (Option.some.injEq _ _ ▸ hf).symm
      subst hg0
      rw [List.foldl_cons, if_pos h]
      exact foldl_if_no_key w gs' _
        (fun g' hg' hw' => hhead g' hg' (h.trans hw'.symm))
    · rw [List.foldl_cons, if_neg h]
      apply ih init g htail
      rwa [List.find?_cons_of_neg gs' (by simp [h])] at hf

lemma countP_key_flatten (w : String) (gs : List (String × List Nat)) :
    ((gs.map (fun g => g.2.map (fun c => (g.1, c)))).flatten).countP
        (fun p => p.1 = w)
      = (gs.map (fun g => if g.1 = w then g.2.length else 0)).sum := by
  rw [List.countP_flatten, List.map_map]
  congr 1
  apply List.map_congr_left
  intro g _
  show (g.2.map (fun c => (g.1, c))).countP (fun p => decide (p.1 = w)) = _
  rw [List.countP_map]
  by_cases h : g.1 = w
  · rw [if_pos h]
    have : ((fun p : String × Nat => decide (p.1 = w)) ∘ (fun c => (g.1, c)))
        = fun _ => true := by
      funext c
      simp [Function.comp, h]
    rw [this]
    exact congrFun List.countP_true g.2
  · rw [if_neg h]
    have : ((fun p : String × Nat => decide (p.1 = w)) ∘ (fun c => (g.1, c)))
        = fun _ => false := by
      funext c
      simp [Function.comp, h]
    rw [this]
    exact congrFun List.countP_false g.2

lemma sum_single (w : String) : ∀ gs : List (String × List Nat),
    gs.Pairwise (fun a b => a.1 ≠ b.1) → ∀ g ∈ gs, g.1 = w →
    (gs.map (fun g' => if g'.1 = w then g'.2.length else 0)).sum = g.2.length := by
  intro gs
  induction gs with
  | nil =>
    intro _ g hg
    exact absurd hg (List.not_mem_nil g)
  | cons g0 gs' ih =>
    intro hpw g hg hgw
    rw [List.pairwise_cons] at hpw
    obtain ⟨hhead, htail⟩ := hpw
    rcases List.mem_cons.mp hg with rfl | hg'
    · rw [List.map_cons, List.sum_cons, if_pos hgw]
      have hz : (gs'.map (fun g' => if g'.1 = w then g'.2.length else 0)).sum = 0 := by
        apply List.sum_eq_zero
        intro x hx
        rw [List.mem_map] at hx
        obtain ⟨g', hg'mem, rfl⟩ := hx
        rw [if_neg (fun hw' => hhead g' hg'mem (hgw.trans hw'.symm))]
      rw [hz]
      rfl
    · rw [List.map_cons, List.sum_cons]
      have h0 : ¬ (g0.1 = w) := fun hw0 => hhead g hg' (hw0.trans hgw.symm)
      rw [if_neg h0, ih htail g hg' hgw, Nat.zero_add]

lemma le_of_pairLe {a b : String × Nat} (h : pairLe a b = true) : a.1 ≤ b.1 := by
  unfold pairLe at h
  rw [Bool.or_eq_true, Bool.and_eq_true] at h
  rcases h with h | ⟨h, _⟩
  · exact le_of_lt (of_decide_eq_true h)
  · exact le_of_eq (of_decide_eq_true h)

lemma pairLe_trans : ∀ a b c : String × Nat,
    pairLe a b = true → pairLe b c = true → pairLe a c = true := by
  intro a b c hab hbc
  simp only [pairLe, Bool.or_eq_true, Bool.and_eq_true, decide_eq_true_eq]
    at hab hbc ⊢
  rcases hab with h1 | ⟨h1, h2⟩ <;> rcases hbc with h3 | ⟨h3, h4⟩
  · exact Or.inl (lt_trans h1 h3)
  · exact Or.inl (lt_of_lt_of_le h1 (le_of_eq h3))
  · exact Or.inl (lt_of_le_of_lt (le_of_eq h1) h3)
  · exact Or.inr ⟨h1.trans h3, le_trans h2 h4⟩

lemma pairLe_total : ∀ a b : String × Nat, (pairLe a b || pairLe b a) = true := by
  intro a b
  simp only [pairLe, Bool.or_eq_true, Bool.and_eq_true, decide_eq_true_eq]
  rcases lt_trichotomy a.1 b.1 with h | h | h
  · exact Or.inl (Or.inl h)
  · rcases Nat.le_total a.2 b.2 with h2 | h2
    · exact Or.inl (Or.inr ⟨h, h2⟩)
    · exact Or.inr (Or.inr ⟨h.symm, h2⟩)
  · exact Or.inr (Or.inl h)

lemma word_counts_get (ws : List String) (w : String) :
    dictGet (word_counts ws) w = countOpt (ws.count w) := by
  have hperm : ((word_instances ws).mergeSort pairLe).Perm (word_instances ws) :=
    List.mergeSort_perm _ _
  have hsorted := List.sorted_mergeSort pairLe_trans pairLe_total (word_instances ws)
  unfold word_counts collated_word_instances
  generalize hs : (word_instances ws).mergeSort pairLe = s at hperm hsorted ⊢
  have hkeys : s.Pairwise (fun p q : String × Nat => p.1 ≤ q.1) :=
    List.Pairwise.imp (fun hab => le_of_pairLe hab) hsorted
  have hlt := pyGroupBy_sorted_keys s hkeys
  have hne : (pyGroupBy s).Pairwise (fun a b => a.1 ≠ b.1) :=
    List.Pairwise.imp (fun hab => ne_of_lt hab) hlt
  have hflat := pyGroupBy_flatten s
  have hcount : s.countP (fun p => p.1 = w) = ws.count w := by
    have h1 : s.countP (fun p => decide (p.1 = w))
        = (word_instances ws).countP (fun p => decide (p.1 = w)) :=
      hperm.countP_eq _
    rw [h1]
    unfold word_instances
    rw [List.countP_map, List.count_eq_countP]
    apply List.countP_congr
    intro x _
    simp [Function.comp]
  rw [fold_dictSet_get, dictGet_nil]
  cases hf : (pyGroupBy s).find? (fun g => g.1 = w) with
  | none =>
    have hno := List.find?_eq_none.mp hf
    rw [foldl_if_no_key w _ _ (fun g hg hww => hno g hg (by simp [hww]))]
    have hzero : ws.count w = 0 := by
      rw [← hcount, List.countP_eq_zero]
      intro p hp hpw
      rw [← hflat, List.mem_flatten] at hp
      obtain ⟨lst, hlst, hplst⟩ := hp
      rw [List.mem_map] at hlst
      obtain ⟨g, hgmem, rfl⟩ := hlst
      rw [List.mem_map] at hplst
      obtain ⟨c, hc, rfl⟩ := hplst
      exact hno g hgmem (by simpa using hpw)
    rw [hzero]
    rfl
  | some g =>
    have hg1 : g.1 = w := by simpa using List.find?_some hf
    have hgmem : g ∈ pyGroupBy s := List.mem_of_find?_eq_some hf
    rw [foldl_if_found w _ _ g hne hf]
    have hones : ∀ c ∈ g.2, c = 1 := by
      intro c hc
      have hmem : (g.1, c) ∈ s := by
        rw [← hflat, List.mem_flatten]
        exact ⟨g.2.map (fun c' => (g.1, c')),
          List.mem_map_of_mem _ hgmem, List.mem_map_of_mem _ hc⟩
      have hmem2 : (g.1, c) ∈ word_instances ws := hperm.mem_iff.mp hmem
      unfold word_instances at hmem2
      rw [List.mem_map] at hmem2
      obtain ⟨x, _, hx⟩ := hmem2
      exact ((Prod.mk.injEq _ _ _ _).mp hx).2.symm
    have hrep := List.eq_replicate_of_mem hones
    have hsum : g.2.sum = g.2.length := by
      have h2 : g.2.sum = (List.replicate g.2.length 1).sum := by
        conv_lhs => rw [hrep]
      rw [h2, List.sum_replicate, smul_eq_mul, Nat.mul_one]
    have hlen : s.countP (fun p => p.1 = w) = g.2.length := by
      conv_lhs => rw [← hflat]
      rw [countP_key_flatten w]
      exact sum_single w _ hne g hgmem hg1
    have hpos : 0 < g.2.length := List.length_pos.mpr (pyGroupBy_nonempty s g hgmem)
    rw [hsum, ← hcount, hlen]
    unfold countOpt
    rw [if_neg (by omega)]

/-- C3: for every input text (entering through `text.split()`), the
three-step map/reduce pipeline — emit `(word, 1)` per word, sort and
collate by word, sum the counts per word — produces exactly the same
word-to-count mapping as the direct single-pass dictionary count. -/
theorem mapreduce_wordcount_equiv :
    ∀ (ws : List String) (w : String),
      dictGet (word_counts ws) w = dictGet (counts_per_word ws) w := by
  intro ws w
  rw [word_counts_get, counts_per_word_get]
